import Mathlib

/-!
Shallow embedding of the recipe-extraction and shopping-list pipeline.

The definitions below are hand translations of the JavaScript sources
`src/services/shoppingListGenerator.js`, `src/services/recipeParser.js`
and the positioned-fragment parser variant (unnamed part 000).
Strings are modelled as Lean `String` / `List Char`; the regular
expressions of the source are expanded into explicit character scans
that mirror the engine semantics (leftmost match, ordered alternation
with backtracking, greedy quantifiers).  Numbers are modelled as `ℚ`.
-/

/-- Whitespace class used by the source regexes (ASCII part of \s). -/
def jsIsWs (c : Char) : Bool :=
  c = ' ' || c = '\t' || c = '\n' || c = '\r' || c = '\x0b' || c = '\x0c'

/-- Word character class \w of the source regexes. -/
def isWordChar (c : Char) : Bool :=
  c.isAlpha || c.isDigit || c = '_'

/-- Exact starts-with test on character lists. -/
def startsWithL : (pat s : List Char) → Bool
  | [], _ => true
  | _ :: _, [] => false
  | p :: ps, c :: cs => p = c && startsWithL ps cs

/-- Case-insensitive starts-with test; the pattern is given in lowercase. -/
def ciStarts : (pat s : List Char) → Bool
  | [], _ => true
  | _ :: _, [] => false
  | p :: ps, c :: cs => p = c.toLower && ciStarts ps cs

/-- Substring containment (the JavaScript `includes`). -/
def containsIn : (s sub : List Char) → Bool
  | [], sub => startsWithL sub []
  | c :: t, sub => startsWithL sub (c :: t) || containsIn t sub

/-- Lowercasing of a character list (the JavaScript `toLowerCase`). -/
def lowerL (l : List Char) : List Char :=
  l.map Char.toLower

/-- Removal of leading and trailing whitespace (the JavaScript `trim`). -/
def trimL (l : List Char) : List Char :=
  (((l.dropWhile jsIsWs).reverse).dropWhile jsIsWs).reverse

/-- Accumulator pass for `wordsOf`. -/
def wordsOfAux : List Char → List Char → List (List Char)
  | [], acc => if acc.isEmpty then [] else [acc.reverse]
  | c :: cs, acc =>
    if jsIsWs c then
      if acc.isEmpty then wordsOfAux cs [] else acc.reverse :: wordsOfAux cs []
    else wordsOfAux cs (c :: acc)

/-- Maximal runs of non-whitespace characters (split on \s+ of a trimmed string). -/
def wordsOf (l : List Char) : List (List Char) :=
  wordsOfAux l []

/-- Join with single spaces. -/
def joinSp : List (List Char) → List Char
  | [] => []
  | [w] => w
  | w :: ws => w ++ ' ' :: joinSp ws

/-- Decimal value of a digit run. -/
def digitsVal (l : List Char) : ℕ :=
  l.foldl (fun a c => 10 * a + (c.toNat - 48)) 0

/-- Rational value of an integer digit run with optional fraction digits. -/
def digitsValQ (ds fs : List Char) : ℚ :=
  (digitsVal ds : ℚ) + (if fs.isEmpty then 0 else (digitsVal fs : ℚ) / (10 : ℚ) ^ fs.length)

/-- The JavaScript `parseFloat` restricted to the shapes reachable in this
program (optional whitespace and sign, digits, optional dot and digits;
trailing characters ignored; no exponent occurs in any reachable input). -/
def jsParseFloat (s : String) : Option ℚ :=
  let l := s.data.dropWhile jsIsWs
  let sgnRest : ℚ × List Char :=
    match l with
    | '+' :: t => (1, t)
    | '-' :: t => (-1, t)
    | _ => (1, l)
  let ds := sgnRest.2.takeWhile Char.isDigit
  let r := sgnRest.2.dropWhile Char.isDigit
  let fs :=
    match r with
    | '.' :: t => t.takeWhile Char.isDigit
    | _ => []
  if ds.isEmpty && fs.isEmpty then none
  else some (sgnRest.1 * digitsValQ ds fs)

/-! ### shoppingListGenerator.js : parseIngredient -/

/-- Result of `parseIngredient`. -/
structure ParsedIngredient where
  amount : String
  unit : String
  name : String
deriving DecidableEq, Repr

/-- Matched text of the anchored amount pattern
`^(\d+(?:\.\d+)?(?:\s*\/\s*\d+)?)`, or `[]` when it does not match. -/
def amountTake (cs : List Char) : List Char :=
  match cs with
  | [] => []
  | c :: _ =>
    if c.isDigit then
      let ds := cs.takeWhile Char.isDigit
      let r1 := cs.dropWhile Char.isDigit
      let fracRest : List Char × List Char :=
        match r1 with
        | '.' :: t =>
          if (t.takeWhile Char.isDigit).isEmpty then ([], r1)
          else ('.' :: t.takeWhile Char.isDigit, t.dropWhile Char.isDigit)
        | _ => ([], r1)
      let slashPart : List Char :=
        let ws1 := fracRest.2.takeWhile jsIsWs
        let r3 := fracRest.2.dropWhile jsIsWs
        match r3 with
        | '/' :: t =>
          let ws2 := t.takeWhile jsIsWs
          let t2 := t.dropWhile jsIsWs
          if (t2.takeWhile Char.isDigit).isEmpty then []
          else ws1 ++ '/' :: (ws2 ++ t2.takeWhile Char.isDigit)
        | _ => []
      ds ++ fracRest.1 ++ slashPart
    else []

/-- Unit alternatives of the unit-extraction regex of `parseIngredient`, in
the backtracking order of the ordered alternation (a greedy optional `s`
is expanded into the long form followed by the short form). -/
def unitCandidates : List (List Char) :=
  ["cups", "cup", "tbsp", "tablespoons", "tablespoon", "tsp", "teaspoons",
   "teaspoon", "oz", "ounces", "ounce", "lbs", "lb", "pounds", "pound",
   "g", "grams", "gram", "kg", "kilograms", "kilogram", "ml",
   "milliliters", "milliliter", "l", "liters", "liter"].map String.data

/-- Word boundary \b test for the position after a matched unit token. -/
def wordBoundaryAfter (rest : List Char) : Bool :=
  match rest with
  | [] => true
  | c :: _ => !isWordChar c

/-- First candidate that matches case-insensitively at the head and is
followed by a word boundary. -/
def findUnitB : List (List Char) → List Char → Option (List Char)
  | [], _ => none
  | c :: cs, s =>
    if ciStarts c s && wordBoundaryAfter (s.drop c.length) then some c
    else findUnitB cs s

/-- First candidate that matches case-insensitively at the head (no word
boundary; used by the replace regexes of the source). -/
def findUnitNoB : List (List Char) → List Char → Option (List Char)
  | [], _ => none
  | c :: cs, s => if ciStarts c s then some c else findUnitNoB cs s

/-- Scan of `\d+(?:\.\d+)?\s*(unit-alternation)\b` over the whole string;
returns the lowercased captured unit or the empty string. -/
def unitSearch : List Char → String
  | [] => ""
  | c :: cs =>
    if c.isDigit then
      let r1 := cs.dropWhile Char.isDigit
      let r2 :=
        match r1 with
        | '.' :: t =>
          if (t.takeWhile Char.isDigit).isEmpty then r1 else t.dropWhile Char.isDigit
        | _ => r1
      let r3 := r2.dropWhile jsIsWs
      match findUnitB unitCandidates r3 with
      | some u => String.mk u
      | none => unitSearch cs
    else unitSearch cs

/-- Strip the leading unit token and following whitespace
(the replace of `^(?:cups?|...)\s*`, which has no word boundary). -/
def stripUnitWs (cs : List Char) : List Char :=
  match findUnitNoB unitCandidates cs with
  | some u => (cs.drop u.length).dropWhile jsIsWs
  | none => cs

/-- Strip a leading `of` followed by whitespace (replace of `^of\s+`). -/
def stripOfWs (cs : List Char) : List Char :=
  if ciStarts ['o', 'f'] cs then
    match cs.drop 2 with
    | c :: _ =>
      if jsIsWs c then (cs.drop 2).dropWhile jsIsWs else cs
    | [] => cs
  else cs

/-- Replace of `/,.*$/`: removes from the first comma that is followed by
no line terminator, to the end (in a string without line terminators this
is simply the first comma). -/
def stripCommaTail (cs : List Char) : List Char :=
  let finalSeg := (cs.reverse.takeWhile (fun c => !(c = '\n' || c = '\r'))).reverse
  let headPart := cs.take (cs.length - finalSeg.length)
  let pre := finalSeg.takeWhile (fun c => c ≠ ',')
  if pre.length = finalSeg.length then cs else headPart ++ pre

/-- Unit alternatives of the fallback name-strip regex
`^\d+(?:\.\d+)?\s*(?:cups?|tbsp|tsp|oz|lbs?|g|kg|ml|l)?\s*`. -/
def fallbackUnitCands : List (List Char) :=
  ["cups", "cup", "tbsp", "tsp", "oz", "lbs", "lb", "g", "kg", "ml", "l"].map String.data

/-- Fallback name when the primary strip leaves fewer than two characters. -/
def fallbackName (cs : List Char) : List Char :=
  match cs with
  | [] => trimL cs
  | c :: _ =>
    if c.isDigit then
      let r1 := cs.dropWhile Char.isDigit
      let r2 :=
        match r1 with
        | '.' :: t =>
          if (t.takeWhile Char.isDigit).isEmpty then r1 else t.dropWhile Char.isDigit
        | _ => r1
      let r3 := r2.dropWhile jsIsWs
      let r4 :=
        match findUnitNoB fallbackUnitCands r3 with
        | some u => r3.drop u.length
        | none => r3
      trimL (r4.dropWhile jsIsWs)
    else trimL cs

/-- The `parseIngredient` method of ShoppingListGenerator. -/
def parseIngredient (s : String) : ParsedIngredient :=
  let cs := s.data
  let amount := amountTake cs
  let unitStr := unitSearch cs
  let n1 := if amount.isEmpty then cs else (cs.drop amount.length).dropWhile jsIsWs
  let n4 := stripCommaTail (stripOfWs (stripUnitWs n1))
  let nm := trimL n4
  let nm2 := if nm.length < 2 then fallbackName cs else nm
  ⟨String.mk amount, unitStr, String.mk nm2⟩

/-- The `normalizeIngredientName` method: lowercase, strip one trailing
`s`, then `ed`, then `ing`, collapse whitespace, trim. -/
def normalizeIngredientName (s : String) : String :=
  let r := (lowerL s.data).reverse
  let r1 := match r with | 's' :: t => t | _ => r
  let r2 := match r1 with | 'd' :: 'e' :: t => t | _ => r1
  let r3 := match r2 with | 'g' :: 'n' :: 'i' :: t => t | _ => r2
  String.mk (joinSp (wordsOf r3.reverse))

/-- The fixed conversion table of `convertToStandardUnit` (grams for mass,
milliliters for volume; the source float literals 28.35 and 453.59 are
modelled as exact rationals). -/
def conversions : List (String × ℚ) :=
  [("g", 1), ("gram", 1), ("grams", 1), ("kg", 1000), ("kilogram", 1000),
   ("kilograms", 1000), ("oz", 2835/100), ("ounce", 2835/100), ("ounces", 2835/100),
   ("lb", 45359/100), ("lbs", 45359/100), ("pound", 45359/100), ("pounds", 45359/100),
   ("ml", 1), ("milliliter", 1), ("milliliters", 1), ("l", 1000), ("liter", 1000),
   ("liters", 1000), ("cup", 240), ("cups", 240), ("tbsp", 15), ("tablespoon", 15),
   ("tablespoons", 15), ("tsp", 5), ("teaspoon", 5), ("teaspoons", 5)]

/-- The `convertToStandardUnit` method: `none` exactly when the amount does
not parse; a recognized unit multiplies by its factor, an unrecognized or
empty unit returns the raw parsed amount. -/
def convertToStandardUnit (amount unitStr : String) : Option ℚ :=
  match jsParseFloat amount with
  | none => none
  | some n =>
    match conversions.lookup (String.mk (lowerL unitStr.data)) with
    | some c => some (n * c)
    | none => some n

/-! ### shoppingListGenerator.js : consolidation and categorization -/

/-- One recorded amount contribution (amount string, unit, recipe title). -/
structure AmountRec where
  amount : String
  unit : String
  recipe : String
deriving DecidableEq, Repr

/-- One consolidated-ingredient entry. -/
structure Entry where
  name : String
  displayName : String
  totalAmount : ℚ
  amounts : List AmountRec
  unit : String
  recipes : List String
  originalTexts : List String
deriving DecidableEq, Repr

/-- Input recipe as consumed by `consolidateIngredients`. -/
structure RecipeIn where
  title : String
  ingredients : List String
deriving DecidableEq, Repr

/-- Fresh entry created on first sight of a normalized name. -/
def newEntry (key : String) (p : ParsedIngredient) : Entry :=
  ⟨key, p.name, 0, [], p.unit, [], []⟩

/-- Apply a function to the entry stored under a key. -/
def applyAt (m : List (String × Entry)) (key : String) (f : Entry → Entry) :
    List (String × Entry) :=
  m.map (fun kv => if kv.1 = key then (kv.1, f kv.2) else kv)

/-- Per-line entry update: add the converted amount and record the
contribution when the amount string is nonempty and parses; always append
the recipe title and original text. -/
def updEntry (p : ParsedIngredient) (rtitle stext : String) (e : Entry) : Entry :=
  let e1 :=
    if p.amount ≠ "" then
      match convertToStandardUnit p.amount p.unit with
      | some c =>
        { e with totalAmount := e.totalAmount + c,
                 amounts := e.amounts ++ [⟨p.amount, p.unit, rtitle⟩] }
      | none => e
    else e
  { e1 with recipes := e1.recipes ++ [rtitle],
            originalTexts := e1.originalTexts ++ [stext] }

/-- Processing of one ingredient line inside `consolidateIngredients`. -/
def insertStep (rtitle : String) (m : List (String × Entry)) (stext : String) :
    List (String × Entry) :=
  let p := parseIngredient stext
  let key := normalizeIngredientName p.name
  let m1 := if (m.lookup key).isSome then m else m ++ [(key, newEntry key p)]
  applyAt m1 key (updEntry p rtitle stext)

/-- The `consolidateIngredients` method: insertion-ordered map from the
normalized name to its entry, built across all recipes and lines. -/
def consolidateIngredients (recipes : List RecipeIn) : List (String × Entry) :=
  recipes.foldl (fun m r => r.ingredients.foldl (insertStep r.title) m) []

/-- The category table of the ShoppingListGenerator constructor.  The
object literal assigns the key `pepper` twice; under object semantics the
later value `Pantry & Condiments` wins while the key keeps its first
insertion position (after `celery`), which is what this list records. -/
def categoryMappings : List (String × String) :=
  [("chicken", "Meat & Poultry"), ("beef", "Meat & Poultry"),
   ("pork", "Meat & Poultry"), ("turkey", "Meat & Poultry"),
   ("fish", "Seafood"), ("salmon", "Seafood"), ("tuna", "Seafood"),
   ("shrimp", "Seafood"), ("eggs", "Dairy & Eggs"), ("milk", "Dairy & Eggs"),
   ("cheese", "Dairy & Eggs"), ("yogurt", "Dairy & Eggs"),
   ("butter", "Dairy & Eggs"), ("cream", "Dairy & Eggs"),
   ("onion", "Vegetables"), ("garlic", "Vegetables"), ("tomato", "Vegetables"),
   ("carrot", "Vegetables"), ("celery", "Vegetables"),
   ("pepper", "Pantry & Condiments"),
   ("broccoli", "Vegetables"), ("spinach", "Vegetables"),
   ("lettuce", "Vegetables"), ("cucumber", "Vegetables"),
   ("mushroom", "Vegetables"), ("apple", "Fruits"), ("banana", "Fruits"),
   ("orange", "Fruits"), ("lemon", "Fruits"), ("lime", "Fruits"),
   ("berry", "Fruits"), ("strawberry", "Fruits"), ("blueberry", "Fruits"),
   ("rice", "Grains & Starches"), ("pasta", "Grains & Starches"),
   ("bread", "Grains & Starches"), ("flour", "Grains & Starches"),
   ("oats", "Grains & Starches"), ("quinoa", "Grains & Starches"),
   ("potato", "Grains & Starches"), ("oil", "Pantry & Condiments"),
   ("vinegar", "Pantry & Condiments"), ("salt", "Pantry & Condiments"),
   ("sugar", "Pantry & Condiments"), ("honey", "Pantry & Condiments"),
   ("sauce", "Pantry & Condiments"), ("spice", "Pantry & Condiments"),
   ("herb", "Pantry & Condiments"), ("beans", "Canned & Packaged"),
   ("broth", "Canned & Packaged"), ("stock", "Canned & Packaged"),
   ("can", "Canned & Packaged"), ("jar", "Canned & Packaged")]

/-- First keyword of the table contained in the name decides the category. -/
def findCat (l : List Char) : List (String × String) → String
  | [] => "Other"
  | (k, c) :: rest => if containsIn l k.data then c else findCat l rest

/-- The `categorizeIngredient` method. -/
def categorizeIngredient (s : String) : String :=
  findCat (lowerL s.data) categoryMappings

/-! ### recipeParser.js : splitting primitives -/

/-- Fuelled splitter: splits the character list at every match of the
delimiter function, which returns the suffix after a consumed delimiter.
Every delimiter below consumes at least one character, so fuel
`length + 1` never runs out and the base case is unreachable. -/
def splitByF (delim : List Char → Option (List Char)) :
    ℕ → List Char → List Char → List (List Char)
  | 0, _, acc => [acc]
  | _ + 1, [], acc => [acc]
  | fuel + 1, c :: cs, acc =>
    match delim (c :: cs) with
    | some rest => acc :: splitByF delim fuel rest []
    | none => splitByF delim fuel cs (acc ++ [c])

/-- Delimiter of `split(/[\n\r]|(?:\s{3,})/)`: a single line terminator,
or a maximal whitespace run of length at least three. -/
def lineDelim (cs : List Char) : Option (List Char) :=
  match cs with
  | [] => none
  | c :: t =>
    if c = '\n' || c = '\r' then some t
    else if jsIsWs c then
      if decide (3 ≤ (cs.takeWhile jsIsWs).length) then some (cs.dropWhile jsIsWs)
      else none
    else none

/-- The split on `[\n\r]|(?:\s{3,})` used for title and ingredient lines. -/
def splitLines (cs : List Char) : List (List Char) :=
  splitByF lineDelim (cs.length + 1) cs []

/-- Delimiter of the exact `split('\n')`. -/
def nlDelim (cs : List Char) : Option (List Char) :=
  match cs with
  | '\n' :: t => some t
  | _ => none

/-- The exact newline split used by the fallback extractors. -/
def splitNl (cs : List Char) : List (List Char) :=
  splitByF nlDelim (cs.length + 1) cs []

/-- Backtracking tail of `\n\s*\n` after the first newline: consumes
whitespace up to the last newline inside the run, if a second newline
exists. -/
def nlRunTail : List Char → Option (List Char)
  | [] => none
  | c :: cs =>
    if jsIsWs c then
      match nlRunTail cs with
      | some r => some r
      | none => if c = '\n' then some cs else none
    else none

/-- Delimiter of `split(/(?:\d+\.\s*|\n\s*\n)/)` used on direction text:
a digit run followed by a dot and optional whitespace, or a blank-line
paragraph break. -/
def dirDelim (cs : List Char) : Option (List Char) :=
  match cs with
  | [] => none
  | c :: t =>
    if c.isDigit then
      match t.dropWhile Char.isDigit with
      | '.' :: r2 => some (r2.dropWhile jsIsWs)
      | _ => none
    else if c = '\n' then nlRunTail t
    else none

/-- The direction-step split. -/
def splitDirSteps (cs : List Char) : List (List Char) :=
  splitByF dirDelim (cs.length + 1) cs []

/-! ### recipeParser.js : classifiers -/

/-- Skip of the `[:\s]*` character class. -/
def skipColonWs (l : List Char) : List Char :=
  l.dropWhile (fun c => c = ':' || jsIsWs c)

/-- Head-of-list digit test. -/
def headDigit (l : List Char) : Bool :=
  match l with
  | c :: _ => c.isDigit
  | [] => false

/-- Macro keyword alternatives of `looksLikeMacro`, in alternation order. -/
def macroKwAlts : List (List Char) :=
  ["calories", "calorie", "protein", "carbs", "carb", "fat", "fiber"].map String.data

/-- Test of `(?:calories?|protein|carbs?|fat|fiber)[:\s]*\d+` at one position. -/
def macroKwAt (s : List Char) : Bool :=
  macroKwAlts.any (fun a => ciStarts a s && headDigit (skipColonWs (s.drop a.length)))

/-- The `looksLikeMacro` predicate of the source (scan over all positions). -/
def looksLikeMacroLine : List Char → Bool
  | [] => false
  | c :: t => macroKwAt (c :: t) || looksLikeMacroLine t

/-- Boundary-before test for a \b that precedes a word. -/
def boundaryBefore : Option Char → Bool
  | none => true
  | some c => !isWordChar c

/-- Scan for a whole word (both sides \b) from the given alternatives. -/
def hasWordCIAux (ws : List (List Char)) : Option Char → List Char → Bool
  | _, [] => false
  | prev, c :: t =>
    (boundaryBefore prev &&
      ws.any (fun w => ciStarts w (c :: t) && wordBoundaryAfter ((c :: t).drop w.length)))
    || hasWordCIAux ws (some c) t

/-- Whole-word containment test, case-insensitive. -/
def hasWordCI (ws : List (List Char)) (l : List Char) : Bool :=
  hasWordCIAux ws none l

/-- Cooking-action verbs of `looksLikeDirection`. -/
def cookVerbs : List (List Char) :=
  ["heat", "cook", "bake", "mix", "stir", "add", "place", "remove"].map String.data

/-- Leading `(?:\d+\.|\d+\))\s` marker test. -/
def leadingStepMarker (l : List Char) : Bool :=
  !(l.takeWhile Char.isDigit).isEmpty &&
    (match l.dropWhile Char.isDigit with
     | c :: d :: _ => (c = '.' || c = ')') && jsIsWs d
     | _ => false)

/-- The `looksLikeDirection` predicate of the source. -/
def looksLikeDirection (l : List Char) : Bool :=
  leadingStepMarker l || hasWordCI cookVerbs l

/-- The `looksLikeTitle` predicate of the source; the double negation in
the source reduces to a plain contains-space test. -/
def looksLikeTitle (l : List Char) : Bool :=
  decide (l.length < 100) && l.contains ' ' && !(l.any Char.isDigit) &&
    decide (l.count ' ' + 1 < 10)

/-- Unit alternatives of the measurement pattern of `looksLikeIngredient`,
in alternation order. -/
def measurementUnitCands : List (List Char) :=
  ["cup", "cups", "tbsp", "tablespoons", "tablespoon", "tsp", "teaspoons",
   "teaspoon", "oz", "ounces", "ounce", "lb", "lbs", "pounds", "pound",
   "g", "grams", "gram", "kg", "ml", "liters", "liter", "l"].map String.data

/-- Scan of `\d+\s*(unit)\b` over the line. -/
def measurementScan : List Char → Bool
  | [] => false
  | c :: t =>
    (c.isDigit &&
      (findUnitB measurementUnitCands (((c :: t).dropWhile Char.isDigit).dropWhile jsIsWs)).isSome)
    || measurementScan t

/-- Food words of the common-ingredient pattern of `looksLikeIngredient`. -/
def foodWords : List (List Char) :=
  ["chicken", "beef", "pork", "fish", "rice", "pasta", "onion", "garlic",
   "oil", "butter", "salt", "pepper", "sugar", "flour", "egg", "milk",
   "cheese", "tomato", "potato", "carrot", "broccoli", "spinach", "lettuce",
   "bread", "water", "juice", "wine", "stock", "broth"].map String.data

/-- Leading `\d+\.` test. -/
def leadingNumberDot (l : List Char) : Bool :=
  !(l.takeWhile Char.isDigit).isEmpty &&
    (match l.dropWhile Char.isDigit with
     | '.' :: _ => true
     | _ => false)

/-- Leading `\w+:` test. -/
def leadingWordColon (l : List Char) : Bool :=
  !(l.takeWhile isWordChar).isEmpty &&
    (match l.dropWhile isWordChar with
     | ':' :: _ => true
     | _ => false)

/-- Colon condition of the general branch: no colon, or exactly one. -/
def colonCountOk (l : List Char) : Bool :=
  !(l.contains ':') || decide (l.count ':' = 1)

/-- The `looksLikeIngredient` predicate of the source. -/
def looksLikeIngredient (l : List Char) : Bool :=
  if l.isEmpty || decide (l.length < 3) then false
  else if headDigit l || measurementScan l ||
      (match l with | '*' :: _ => true | _ => false) ||
      (match l with | '-' :: _ => true | _ => false) ||
      (match l with | '•' :: _ => true | _ => false) ||
      leadingNumberDot l || leadingWordColon l then true
  else if hasWordCI foodWords l && decide ((wordsOf l).length < 15) then true
  else
    decide (5 ≤ l.length) && decide (l.length < 150) && l.contains ' ' &&
      decide ((wordsOf l).length < 20) && colonCountOk l

/-- The `cleanIngredient` method: strip a bullet marker, then a leading
numbered-list marker, then trim. -/
def cleanIngredient (l : List Char) : List Char :=
  let l1 :=
    match l with
    | c :: t => if c = '-' || c = '*' || c = '•' then t.dropWhile jsIsWs else l
    | [] => l
  let l2 :=
    if (l1.takeWhile Char.isDigit).isEmpty then l1
    else
      match l1.dropWhile Char.isDigit with
      | '.' :: t => t.dropWhile jsIsWs
      | _ => l1
  trimL l2

/-! ### recipeParser.js : title extraction -/

/-- Acceptance test of the first title strategy for one trimmed line. -/
def titleLineOk (c : List Char) : Bool :=
  !c.isEmpty &&
    !containsIn (lowerL c) "calories".data &&
    !containsIn (lowerL c) "protein".data &&
    !containsIn (lowerL c) "ingredients".data &&
    !containsIn (lowerL c) "directions".data &&
    !containsIn (lowerL c) "instructions".data &&
    decide (2 < c.length) && decide (c.length < 100) && !headDigit c

/-- First line passing the title filter. -/
def firstTitleLine : List (List Char) → Option (List Char)
  | [] => none
  | l :: rest =>
    let c := trimL l
    if titleLineOk c then some c else firstTitleLine rest

/-- Prefix of the list before the first case-insensitive occurrence of the
pattern (the whole list when absent); element zero of a regex split. -/
def beforeCI (pat : List Char) : List Char → List Char
  | [] => []
  | c :: t => if ciStarts pat (c :: t) then [] else c :: beforeCI pat t

/-- The `extractTitle` method of recipeParser.js. -/
def extractTitle (s : String) : Option String :=
  match firstTitleLine (splitLines s.data) with
  | some t => some (String.mk t)
  | none =>
    let before := beforeCI "ingredient".data s.data
    if !before.isEmpty && decide (before.length < 200) then
      let ws := wordsOf (trimL before)
      if decide (1 < ws.length) && decide (ws.length < 20) then
        some (String.mk (joinSp ws))
      else none
    else none

/-! ### recipeParser.js : ingredient extraction -/

/-- Suffix right after the first case-insensitive occurrence of the pattern. -/
def afterCI (pat : List Char) : List Char → Option (List Char)
  | [] => none
  | c :: t =>
    if ciStarts pat (c :: t) then some ((c :: t).drop pat.length)
    else afterCI pat t

/-- Lookahead test for a direction-section keyword. -/
def dirKwPre (s : List Char) : Bool :=
  ciStarts "direction".data s || ciStarts "instruction".data s ||
    ciStarts "method".data s || ciStarts "preparation".data s

/-- Lazy capture `([^]*?)` bounded by the direction-keyword lookahead or by
a multiline end-of-line (the next line terminator or the end of input). -/
def captureUntilDir : List Char → List Char
  | [] => []
  | c :: t =>
    if dirKwPre (c :: t) || c = '\n' || c = '\r' then []
    else c :: captureUntilDir t

/-- Capture of ingredient strategy one: the section regex
`(?:ingredients?|ingredient list)[:\s]*([^]*?)(?=(?:directions?|instructions?|method|preparation)[:\s]*|$)`
with the i and m flags; `none` exactly when no `ingredient` occurs. -/
def ingSectionCapture (cs : List Char) : Option (List Char) :=
  match afterCI "ingredient".data cs with
  | none => none
  | some r1 =>
    let r2 :=
      match r1 with
      | 's' :: t => t
      | 'S' :: t => t
      | _ => r1
    some (captureUntilDir (skipColonWs r2))

/-- The `parseIngredientText` method: split, trim, keep ingredient-like
lines longer than two characters, clean each. -/
def parseIngredientText (cs : List Char) : List (List Char) :=
  (splitLines cs).filterMap (fun l =>
    let c := trimL l
    if decide (2 < c.length) && looksLikeIngredient c then some (cleanIngredient c)
    else none)

/-- State machine of `extractIngredientsFallback` over exact newline lines. -/
def ingFallbackAux : Bool → List (List Char) → List (List Char)
  | _, [] => []
  | inSec, l :: rest =>
    let c := trimL l
    if ciStarts "ingredient".data c then ingFallbackAux true rest
    else if ciStarts "direction".data c || ciStarts "instruction".data c ||
        ciStarts "method".data c then ingFallbackAux false rest
    else if inSec && looksLikeIngredient c then
      cleanIngredient c :: ingFallbackAux inSec rest
    else ingFallbackAux inSec rest

/-- The `extractIngredientsFallback` method. -/
def extractIngredientsFallback (cs : List Char) : List (List Char) :=
  ingFallbackAux false (splitNl cs)

/-- The `extractIngredients` method: strategy one (section capture), then
the fallback; a later strategy runs only when the earlier produced zero
results. -/
def extractIngredients (s : String) : List String :=
  let s1 :=
    match ingSectionCapture s.data with
    | some cap => parseIngredientText cap
    | none => []
  if !s1.isEmpty then s1.map String.mk
  else (extractIngredientsFallback s.data).map String.mk

/-- The `extractIngredientsAlternative` recovery pass: every split line
that is not title-, macro- or direction-like and is ingredient-like. -/
def extractIngredientsAlternative (s : String) : List String :=
  (splitLines s.data).filterMap (fun l =>
    let c := trimL l
    if c.isEmpty || decide (c.length < 3) then none
    else if looksLikeTitle c || looksLikeMacroLine c || looksLikeDirection c then none
    else if looksLikeIngredient c then some (String.mk (cleanIngredient c))
    else none)

/-! ### recipeParser.js : direction extraction -/

/-- Consume one direction keyword at the head (ordered alternation with a
greedy optional `s`). -/
def dirKwConsume (s : List Char) : Option (List Char) :=
  if ciStarts "directions".data s then some (s.drop 10)
  else if ciStarts "direction".data s then some (s.drop 9)
  else if ciStarts "instructions".data s then some (s.drop 12)
  else if ciStarts "instruction".data s then some (s.drop 11)
  else if ciStarts "method".data s then some (s.drop 6)
  else if ciStarts "preparation".data s then some (s.drop 11)
  else none

/-- Leftmost position where a direction keyword matches; returns the
suffix after the keyword. -/
def findDirKw : List Char → Option (List Char)
  | [] => none
  | c :: t =>
    match dirKwConsume (c :: t) with
    | some r => some r
    | none => findDirKw t

/-- Lazy capture `([^]*?)$` with the m flag: up to the first line
terminator or the end of input. -/
def captureToLineEnd : List Char → List Char
  | [] => []
  | c :: t => if c = '\n' || c = '\r' then [] else c :: captureToLineEnd t

/-- Capture of direction strategy one. -/
def dirStrategy1 (cs : List Char) : Option (List Char) :=
  match findDirKw cs with
  | none => none
  | some r => some (captureToLineEnd (skipColonWs r))

/-- Capture of direction strategy two: an `ingredients?` occurrence with a
direction keyword somewhere after it. -/
def dirStrategy2 : List Char → Option (List Char)
  | [] => none
  | c :: t =>
    if ciStarts "ingredient".data (c :: t) then
      let r1 := (c :: t).drop 10
      let r2 :=
        match r1 with
        | 's' :: u => u
        | 'S' :: u => u
        | _ => r1
      match findDirKw r2 with
      | some r => some (captureToLineEnd (skipColonWs r))
      | none => dirStrategy2 t
    else dirStrategy2 t

/-- Leading `^\d+\.` test used by the renumbering branch. -/
def startsNumDot (l : List Char) : Bool :=
  !(l.takeWhile Char.isDigit).isEmpty && ((l.dropWhile Char.isDigit).head? == some '.')

/-- Decimal digit characters of a step number. -/
def stepNumChars (n : ℕ) : List Char :=
  Nat.toDigits 10 n

/-- The conditional renumbering map of `parseDirectionText` (zero-based
index; a step keeps its own number only when it starts with `\d+\.`). -/
def renumberSteps : ℕ → List (List Char) → List (List Char)
  | _, [] => []
  | i, st :: rest =>
    (if startsNumDot st then st else stepNumChars (i + 1) ++ '.' :: ' ' :: st)
      :: renumberSteps (i + 1) rest

/-- Unconditional sequential numbering (the map of
`extractDirectionsFallback`, one-based). -/
def seqNumberFrom : ℕ → List (List Char) → List (List Char)
  | _, [] => []
  | i, st :: rest => (stepNumChars i ++ '.' :: ' ' :: st) :: seqNumberFrom (i + 1) rest

/-- Steps kept by `parseDirectionText`: split on numbered-step markers or
blank-line breaks, trim, keep steps longer than ten characters that are
not macro-like. -/
def keptSteps (cs : List Char) : List (List Char) :=
  ((splitDirSteps cs).map trimL).filter
    (fun st => decide (10 < st.length) && !looksLikeMacroLine st)

/-- The `parseDirectionText` method. -/
def parseDirectionText (cs : List Char) : List (List Char) :=
  renumberSteps 0 (keptSteps cs)

/-- State machine of `extractDirectionsFallback`: lines longer than twenty
characters start a new step, shorter nonempty lines are appended to the
current step with a space. -/
def dirFallbackAux : Bool → List Char → List (List Char) → List (List Char)
  | _, cur, [] => if cur.isEmpty then [] else [cur]
  | inSec, cur, l :: rest =>
    let c := trimL l
    if ciStarts "direction".data c || ciStarts "instruction".data c ||
        ciStarts "method".data c then dirFallbackAux true cur rest
    else if inSec && !c.isEmpty then
      if decide (20 < c.length) then
        if cur.isEmpty then dirFallbackAux inSec c rest
        else cur :: dirFallbackAux inSec c rest
      else dirFallbackAux inSec (cur ++ ' ' :: c) rest
    else dirFallbackAux inSec cur rest

/-- The `extractDirectionsFallback` method. -/
def extractDirectionsFallback (cs : List Char) : List (List Char) :=
  seqNumberFrom 1 (dirFallbackAux false [] (splitNl cs))

/-- The `extractDirections` method (three-strategy chain). -/
def extractDirections (s : String) : List String :=
  let s1 :=
    match dirStrategy1 s.data with
    | some cap => parseDirectionText cap
    | none => []
  if !s1.isEmpty then s1.map String.mk
  else
    let s2 :=
      match dirStrategy2 s.data with
      | some cap => parseDirectionText cap
      | none => []
    if !s2.isEmpty then s2.map String.mk
    else (extractDirectionsFallback s.data).map String.mk

/-! ### recipeParser.js : macro extraction -/

/-- A digit run with optional fraction at the head of the list. -/
def numCapAt (l : List Char) : Option ℚ :=
  let ds := l.takeWhile Char.isDigit
  if ds.isEmpty then none
  else
    match l.dropWhile Char.isDigit with
    | '.' :: t =>
      let fs := t.takeWhile Char.isDigit
      if fs.isEmpty then some (digitsValQ ds []) else some (digitsValQ ds fs)
    | _ => some (digitsValQ ds [])

/-- Try a label-then-number pattern at one position, over ordered label
alternatives. -/
def tryLabelAt : List (List Char) → List Char → Option ℚ
  | [], _ => none
  | a :: rest, s =>
    if ciStarts a s then
      match numCapAt (skipColonWs (s.drop a.length)) with
      | some v => some v
      | none => tryLabelAt rest s
    else tryLabelAt rest s

/-- Leftmost match of `label[:\s]*number`. -/
def labelNumScan (alts : List (List Char)) : List Char → Option ℚ
  | [] => none
  | c :: t =>
    match tryLabelAt alts (c :: t) with
    | some v => some v
    | none => labelNumScan alts t

/-- Label test after a captured number: `\s*g?\s*label` (the optional `g`
only when the source pattern has it). -/
def labelAfter (withG : Bool) (alts : List (List Char)) (r : List Char) : Bool :=
  let r1 := r.dropWhile jsIsWs
  (withG &&
    (match r1 with
     | c :: t => (c = 'g' || c = 'G') && alts.any (fun a => ciStarts a (t.dropWhile jsIsWs))
     | [] => false))
  || alts.any (fun a => ciStarts a r1)

/-- Try a number-then-label pattern at one position (fraction branch
first, then the branch without the fraction). -/
def tryNumLabelAt (withG : Bool) (alts : List (List Char)) (s : List Char) : Option ℚ :=
  let ds := s.takeWhile Char.isDigit
  if ds.isEmpty then none
  else
    let r := s.dropWhile Char.isDigit
    let fracBranch : Option ℚ :=
      match r with
      | '.' :: t =>
        let fs := t.takeWhile Char.isDigit
        if fs.isEmpty then none
        else if labelAfter withG alts (t.dropWhile Char.isDigit) then
          some (digitsValQ ds fs)
        else none
      | _ => none
    match fracBranch with
    | some v => some v
    | none => if labelAfter withG alts r then some (digitsValQ ds []) else none

/-- Leftmost match of `number\s*g?\s*label`. -/
def numLabelScan (withG : Bool) (alts : List (List Char)) : List Char → Option ℚ
  | [] => none
  | c :: t =>
    match tryNumLabelAt withG alts (c :: t) with
    | some v => some v
    | none => numLabelScan withG alts t

/-- First defined value of an ordered strategy list. -/
def firstSomeQ : List (Option ℚ) → Option ℚ
  | [] => none
  | some v :: _ => some v
  | none :: rest => firstSomeQ rest

/-- Extracted macro map (a field is `none` when the macro was not found). -/
structure Macros where
  calories : Option ℚ
  protein : Option ℚ
  carbs : Option ℚ
  fat : Option ℚ
  fiber : Option ℚ
deriving DecidableEq, Repr

/-- Label alternatives for calories. -/
def calAlts : List (List Char) := ["calories", "calorie", "kcal"].map String.data

/-- Label alternatives for protein. -/
def protAlts : List (List Char) := ["protein"].map String.data

/-- Label alternatives for carbs. -/
def carbAlts : List (List Char) :=
  ["carbs", "carb", "carbohydrates", "carbohydrate"].map String.data

/-- Label alternatives for fat. -/
def fatAlts : List (List Char) := ["fat", "fats"].map String.data

/-- Label alternatives for fiber. -/
def fibAlts : List (List Char) := ["fiber"].map String.data

/-- The `extractMacros` method of recipeParser.js: per macro, the ordered
pattern list is label-first, then number-first, then the abbreviation. -/
def extractMacros (s : String) : Macros :=
  let cs := s.data
  { calories := firstSomeQ [labelNumScan calAlts cs, numLabelScan false calAlts cs,
      labelNumScan (["cal"].map String.data) cs]
    protein := firstSomeQ [labelNumScan protAlts cs, numLabelScan true protAlts cs,
      labelNumScan (["prot"].map String.data) cs]
    carbs := firstSomeQ [labelNumScan carbAlts cs,
      numLabelScan true (["carbs", "carb"].map String.data) cs,
      labelNumScan (["cho"].map String.data) cs]
    fat := firstSomeQ [labelNumScan fatAlts cs, numLabelScan true fatAlts cs,
      labelNumScan (["lipid"].map String.data) cs]
    fiber := firstSomeQ [labelNumScan fibAlts cs, numLabelScan true fibAlts cs,
      labelNumScan (["fibre"].map String.data) cs] }

/-- The `extractMacros` method of the positioned-fragment parser variant
(unnamed part 000): number-first patterns come before label-first ones. -/
def extractMacrosAlt (s : String) : Macros :=
  let cs := s.data
  { calories := firstSomeQ [numLabelScan false (["calories", "calorie"].map String.data) cs,
      labelNumScan calAlts cs, labelNumScan (["cal"].map String.data) cs]
    protein := firstSomeQ [numLabelScan true protAlts cs, labelNumScan protAlts cs,
      labelNumScan (["prot"].map String.data) cs]
    carbs := firstSomeQ [numLabelScan true (["carbs", "carb"].map String.data) cs,
      labelNumScan carbAlts cs, labelNumScan (["cho"].map String.data) cs]
    fat := firstSomeQ [numLabelScan true (["fat"].map String.data) cs,
      labelNumScan fatAlts cs, labelNumScan (["lipid"].map String.data) cs]
    fiber := firstSomeQ [numLabelScan true fibAlts cs, labelNumScan fibAlts cs,
      labelNumScan (["fibre"].map String.data) cs] }

/-! ### recipeParser.js : the recipe assembler -/

/-- One assembled recipe record (the generated uuid of the source is a
side effect outside the pure data flow and is not modelled). -/
structure Recipe where
  pageNumber : ℕ
  title : String
  macros : Macros
  ingredients : List String
  directions : List String
  originalText : String
deriving DecidableEq, Repr

/-- The `parseRecipe` method: validation discards a page with neither
title nor ingredients; an absent title is defaulted from the page number;
the alternative recovery pass runs only for emitted records with empty
ingredients and page text longer than one hundred characters. -/
def parseRecipe (pageText : String) (pageNumber : ℕ) : Option Recipe :=
  let title := extractTitle pageText
  let macros := extractMacros pageText
  let ingredients := extractIngredients pageText
  let directions := extractDirections pageText
  if title.isNone && ingredients.isEmpty then none
  else
    let t := title.getD ("Recipe from Page " ++ toString pageNumber)
    let ings :=
      if ingredients.isEmpty && decide (100 < pageText.length) then
        extractIngredientsAlternative pageText
      else ingredients
    some ⟨pageNumber, t, macros, ings, directions, String.mk (trimL pageText.data)⟩

/-! ### unnamed part 000 : organizeTextByLines -/

/-- One positioned text fragment (content, x and y of the transform). -/
structure TextItem where
  str : String
  x : ℚ
  y : ℚ

/-- Add one fragment to the first line bucket within tolerance five of its
representative y, or open a new bucket at the end. -/
def addItem : List (ℚ × List (String × ℚ)) → TextItem → List (ℚ × List (String × ℚ))
  | [], it => [(it.y, [(it.str, it.x)])]
  | (y0, items) :: rest, it =>
    if |y0 - it.y| ≤ 5 then (y0, items ++ [(it.str, it.x)]) :: rest
    else (y0, items) :: addItem rest it

/-- Stable descending insertion by representative y (the comparator
`b.y - a.y` under a stable sort). -/
def insertLineDesc (x : ℚ × List (String × ℚ)) :
    List (ℚ × List (String × ℚ)) → List (ℚ × List (String × ℚ))
  | [] => [x]
  | e :: es => if x.1 ≤ e.1 then e :: insertLineDesc x es else x :: e :: es

/-- Stable descending sort of the line buckets. -/
def sortLinesDesc (ls : List (ℚ × List (String × ℚ))) : List (ℚ × List (String × ℚ)) :=
  ls.foldl (fun acc l => insertLineDesc l acc) []

/-- Stable ascending insertion by x (the comparator `a.x - b.x`). -/
def insertItemAsc (x : String × ℚ) : List (String × ℚ) → List (String × ℚ)
  | [] => [x]
  | e :: es => if e.2 ≤ x.2 then e :: insertItemAsc x es else x :: e :: es

/-- Stable ascending sort of the fragments of one line. -/
def sortItemsAsc (its : List (String × ℚ)) : List (String × ℚ) :=
  its.foldl (fun acc i => insertItemAsc i acc) []

/-- The `organizeTextByLines` method: bucket fragments by vertical
proximity, sort lines top to bottom and fragments left to right, join
with spaces, trim, and drop empty lines. -/
def organizeTextByLines (items : List TextItem) : List String :=
  let lines := items.foldl addItem []
  ((sortLinesDesc lines).map (fun l =>
    String.mk (trimL (joinSp ((sortItemsAsc l.2).map (fun it => it.1.data)))))).filter
    (fun s => s ≠ "")

/-! ### claim-side vocabulary -/

/-- Unit dimension in the sense of the specification (grams target for
mass, milliliters target for volume, no dimension otherwise). -/
inductive UnitDim where
  | mass : UnitDim
  | volume : UnitDim
  | unitless : UnitDim
deriving DecidableEq, Repr

/-- Mass units of the conversion table. -/
def massUnits : List String :=
  ["g", "gram", "grams", "kg", "kilogram", "kilograms", "oz", "ounce",
   "ounces", "lb", "lbs", "pound", "pounds"]

/-- Volume units of the conversion table. -/
def volumeUnits : List String :=
  ["ml", "milliliter", "milliliters", "l", "liter", "liters", "cup", "cups",
   "tbsp", "tablespoon", "tablespoons", "tsp", "teaspoon", "teaspoons"]

/-- Dimension of a parsed unit token, read off the conversion table. -/
def unitDim (u : String) : UnitDim :=
  if u ∈ massUnits then UnitDim.mass
  else if u ∈ volumeUnits then UnitDim.volume
  else UnitDim.unitless

/-- Value a recorded contribution added to the running total. -/
def convVal (a : AmountRec) : ℚ :=
  (convertToStandardUnit a.amount a.unit).getD 0

/-- No adjacent digit-dot pair anywhere in the list; segments produced by
the direction split always satisfy this. -/
def noNumDotPair (l : List Char) : Prop :=
  List.Chain' (fun a b => ¬(a.isDigit = true ∧ b = '.')) l

/-! ## Helper lemmas -/

theorem foldl_pres {α β : Type} (P : β → Prop) {f : β → α → β}
    (hf : ∀ b a, P b → P (f b a)) :
    ∀ (l : List α) (b : β), P b → P (l.foldl f b) := by
  intro l
  induction l with
  | nil => intro b hb; exact hb
  | cons a t ih => intro b hb; exact ih _ (hf b a hb)

theorem lookup_mem_entry :
    ∀ {m : List (String × Entry)} {k : String} {e : Entry},
      m.lookup k = some e → (k, e) ∈ m := by
  intro m
  induction m with
  | nil => intro k e h; simp [List.lookup] at h
  | cons p t ih =>
    intro k e h
    obtain ⟨pk, pe⟩ := p
    by_cases hk : k = pk
    · subst hk
      simp [List.lookup] at h
      simp [h]
    · rw [List.lookup] at h
      rw [show (k == pk) = false by simpa using hk] at h
      exact List.mem_cons_of_mem _ (ih h)

theorem updEntry_inv (p : ParsedIngredient) (rtitle stext : String) (e : Entry)
    (he : e.totalAmount = (e.amounts.map convVal).sum) :
    (updEntry p rtitle stext e).totalAmount =
      ((updEntry p rtitle stext e).amounts.map convVal).sum := by
  unfold updEntry
  by_cases ha : p.amount ≠ ""
  · rw [if_pos ha]
    cases hconv : convertToStandardUnit p.amount p.unit with
    | none => exact he
    | some c =>
      simp only [List.map_append, List.sum_append, List.map_cons, List.map_nil,
        List.sum_cons, List.sum_nil, add_zero]
      rw [he]
      have hcv : convVal ⟨p.amount, p.unit, rtitle⟩ = c := by
        unfold convVal
        rw [hconv]
        rfl
      rw [hcv]
  · rw [if_neg ha]
    exact he

theorem insertStep_inv (rtitle : String) (m : List (String × Entry)) (stext : String)
    (hm : ∀ q ∈ m, q.2.totalAmount = (q.2.amounts.map convVal).sum) :
    ∀ q ∈ insertStep rtitle m stext, q.2.totalAmount = (q.2.amounts.map convVal).sum := by
  intro q hq
  unfold insertStep applyAt at hq
  obtain ⟨q0, hq0, hmap⟩ := List.mem_map.1 hq
  have hm1 : ∀ q2 ∈ (if ((m.lookup
      (normalizeIngredientName (parseIngredient stext).name)).isSome) then m
      else m ++ [(normalizeIngredientName (parseIngredient stext).name,
        newEntry (normalizeIngredientName (parseIngredient stext).name)
          (parseIngredient stext))]),
      q2.2.totalAmount = (q2.2.amounts.map convVal).sum := by
    intro q2 hq2
    by_cases hl : (m.lookup (normalizeIngredientName (parseIngredient stext).name)).isSome
    · rw [if_pos hl] at hq2
      exact hm _ hq2
    · rw [if_neg hl] at hq2
      rcases List.mem_append.1 hq2 with h2 | h2
      · exact hm _ h2
      · have : q2 = (normalizeIngredientName (parseIngredient stext).name,
          newEntry (normalizeIngredientName (parseIngredient stext).name)
            (parseIngredient stext)) := by simpa using h2
        rw [this]
        simp [newEntry]
  by_cases hkey : q0.1 = normalizeIngredientName (parseIngredient stext).name
  · rw [if_pos hkey] at hmap
    rw [← hmap]
    exact updEntry_inv _ _ _ _ (hm1 q0 hq0)
  · rw [if_neg hkey] at hmap
    rw [← hmap]
    exact hm1 q0 hq0

theorem consolidate_inv (rs : List RecipeIn) :
    ∀ q ∈ consolidateIngredients rs,
      q.2.totalAmount = (q.2.amounts.map convVal).sum := by
  unfold consolidateIngredients
  refine foldl_pres
    (fun (m : List (String × Entry)) => ∀ q ∈ m, q.2.totalAmount = (q.2.amounts.map convVal).sum)
    ?_ rs [] (fun q hq => absurd hq (List.not_mem_nil q))
  intro m r hmis
  exact foldl_pres
    (fun (m2 : List (String × Entry)) => ∀ q ∈ m2, q.2.totalAmount = (q.2.amounts.map convVal).sum)
    (fun m2 s hm2 => insertStep_inv r.title m2 s hm2) r.ingredients m hmis

theorem splitByF_dir_clean :
    ∀ (fuel : ℕ) (cs acc : List Char),
      noNumDotPair acc →
      (∀ d, acc.getLast? = some d → d.isDigit = true → cs.head? ≠ some '.') →
      ∀ s ∈ splitByF dirDelim fuel cs acc, noNumDotPair s := by
  intro fuel
  induction fuel with
  | zero =>
    intro cs acc hacc _ s hs
    simp only [splitByF, List.mem_singleton] at hs
    exact hs ▸ hacc
  | succ n ih =>
    intro cs acc hacc hguard s hs
    cases cs with
    | nil =>
      simp only [splitByF, List.mem_singleton] at hs
      exact hs ▸ hacc
    | cons c t =>
      rw [splitByF] at hs
      cases hd : dirDelim (c :: t) with
      | some rest =>
        rw [hd] at hs
        rcases List.mem_cons.1 hs with h | h
        · exact h ▸ hacc
        · exact ih rest [] List.chain'_nil (by simp) s h
      | none =>
        rw [hd] at hs
        refine ih t (acc ++ [c]) ?_ ?_ s hs
        · refine List.Chain'.append hacc (List.chain'_singleton c) ?_
          intro x hx y hy hxy
          have hyc : c = y := by simpa using hy
          have := hguard x hx hxy.1
          exact this (by simp [hyc.trans hxy.2])
        · intro d hlast hdig
          have hdc : d = c := by
            rw [List.getLast?_concat acc] at hlast
            exact (Option.some.inj hlast).symm
          intro hhead
          cases t with
          | nil => simp at hhead
          | cons c2 t2 =>
            have hc2 : c2 = '.' := by simpa using hhead
            subst hc2
            rw [dirDelim] at hd
            rw [if_pos (hdc ▸ hdig)] at hd
            simp [List.dropWhile_cons] at hd

theorem splitDirSteps_clean (cs : List Char) : ∀ s ∈ splitDirSteps cs, noNumDotPair s :=
  splitByF_dir_clean (cs.length + 1) cs [] List.chain'_nil (by simp)

theorem trim_decomp (l : List Char) : ∃ u v, l = u ++ trimL l ++ v := by
  refine ⟨l.takeWhile jsIsWs, ((l.dropWhile jsIsWs).reverse.takeWhile jsIsWs).reverse, ?_⟩
  conv_lhs => rw [← List.takeWhile_append_dropWhile jsIsWs l]
  rw [List.append_assoc]
  congr 1
  conv_lhs => rw [← List.reverse_reverse (l.dropWhile jsIsWs),
    ← List.takeWhile_append_dropWhile jsIsWs (l.dropWhile jsIsWs).reverse]
  rw [List.reverse_append]
  rfl

theorem noNumDotPair_trim {l : List Char} (h : noNumDotPair l) : noNumDotPair (trimL l) := by
  obtain ⟨u, v, hl⟩ := trim_decomp l
  unfold noNumDotPair at h
  rw [hl, List.append_assoc] at h
  have h2 := (List.chain'_append.1 h).2.1
  exact (List.chain'_append.1 h2).1

theorem startsNumDot_eq_false_of {l : List Char} (h : noNumDotPair l) :
    startsNumDot l = false := by
  cases hb : startsNumDot l with
  | false => rfl
  | true =>
    exfalso
    unfold startsNumDot at hb
    rw [Bool.and_eq_true, beq_iff_eq] at hb
    obtain ⟨hne, hmatch⟩ := hb
    cases hdrop : l.dropWhile Char.isDigit with
    | nil => rw [hdrop] at hmatch; simp at hmatch
    | cons c r =>
      rw [hdrop] at hmatch
      have hcdot : c = '.' := by simpa using hmatch
      subst hcdot
      have heq : l = l.takeWhile Char.isDigit ++ '.' :: r := by
        rw [← hdrop, List.takeWhile_append_dropWhile]
      unfold noNumDotPair at h
      rw [heq] at h
      have hb3 := (List.chain'_append.1 h).2.2
      have hne2 : l.takeWhile Char.isDigit ≠ [] := by
        intro hnil; rw [hnil] at hne; simp at hne
      have hlast := List.getLast?_eq_getLast _ hne2
      have hlastmem := List.getLast_mem hne2
      have hdig := List.mem_takeWhile_imp hlastmem
      exact hb3 _ hlast '.' rfl ⟨hdig, rfl⟩

theorem renumber_eq_seq :
    ∀ (l : List (List Char)) (i : ℕ), (∀ st ∈ l, startsNumDot st = false) →
      renumberSteps i l = seqNumberFrom (i + 1) l := by
  intro l
  induction l with
  | nil => intro i _; rfl
  | cons st rest ih =>
    intro i h
    have h1 : startsNumDot st = false := h st (List.mem_cons_self st rest)
    simp only [renumberSteps, seqNumberFrom, h1, Bool.false_eq_true, if_false]
    rw [ih (i + 1) (fun s hs => h s (List.mem_cons_of_mem st hs))]

theorem findCat_skip (l : List Char) :
    ∀ (L1 L2 : List (String × String)) (c : String),
      (∀ p ∈ L1, containsIn l p.1.data = false) →
      containsIn l "pepper".data = true →
      findCat l (L1 ++ ("pepper", c) :: L2) = c := by
  intro L1
  induction L1 with
  | nil =>
    intro L2 c _ hpep
    simp [findCat, hpep]
  | cons q t ih =>
    intro L2 c h hpep
    obtain ⟨qk, qc⟩ := q
    have hq : containsIn l qk.data = false := h (qk, qc) (List.mem_cons_self _ _)
    simp only [List.cons_append, findCat, hq, Bool.false_eq_true, if_false]
    exact ih L2 c (fun p hp => h p (List.mem_cons_of_mem _ hp)) hpep


/-! ## Shared concrete evaluations -/

theorem consolidateMixed_eval :
    consolidateIngredients [⟨"A", ["1 cup flour", "100 g flour"]⟩] =
      [("flour", ⟨"flour", "flour", 340, [⟨"1", "cup", "A"⟩, ⟨"100", "g", "A"⟩], "cup",
        ["A", "A"], ["1 cup flour", "100 g flour"]⟩)] := by
  have hp1 : parseIngredient "1 cup flour" = ⟨"1", "cup", "flour"⟩ := by decide
  have hp2 : parseIngredient "100 g flour" = ⟨"100", "g", "flour"⟩ := by decide
  have hn : normalizeIngredientName "flour" = "flour" := by decide
  have hc1 : convertToStandardUnit "1" "cup" = some 240 := by
    simp [convertToStandardUnit, jsParseFloat, digitsValQ, digitsVal, jsIsWs,
      conversions, List.lookup, lowerL]
  have hc2 : convertToStandardUnit "100" "g" = some 100 := by
    simp [convertToStandardUnit, jsParseFloat, digitsValQ, digitsVal, jsIsWs,
      conversions, List.lookup, lowerL]
  simp [consolidateIngredients, insertStep, hp1, hp2, hn, hc1, hc2,
    applyAt, newEntry, updEntry, List.lookup]
  norm_num

theorem consolidateMixed_lookup :
    (consolidateIngredients [⟨"A", ["1 cup flour", "100 g flour"]⟩]).lookup "flour" =
      some (⟨"flour", "flour", 340, [⟨"1", "cup", "A"⟩, ⟨"100", "g", "A"⟩], "cup",
        ["A", "A"], ["1 cup flour", "100 g flour"]⟩ : Entry) := by
  rw [consolidateMixed_eval]
  simp [List.lookup]

theorem consolidateHalfCup_eval :
    consolidateIngredients [⟨"A", ["1/2 cup milk"]⟩] =
      [("milk", ⟨"milk", "milk", 240, [⟨"1/2", "cup", "A"⟩], "cup", ["A"],
        ["1/2 cup milk"]⟩)] := by
  have hp : parseIngredient "1/2 cup milk" = ⟨"1/2", "cup", "milk"⟩ := by decide
  have hn : normalizeIngredientName "milk" = "milk" := by decide
  have hc : convertToStandardUnit "1/2" "cup" = some 240 := by
    simp [convertToStandardUnit, jsParseFloat, digitsValQ, digitsVal, jsIsWs,
      conversions, List.lookup, lowerL]
  simp [consolidateIngredients, insertStep, hp, hn, hc,
    applyAt, newEntry, updEntry, List.lookup]

/-! ## Claim theorems -/

/-- C1: consolidating the ingredient list `1 cup flour` from recipe A with
`2 cups flour` from recipe B produces exactly one consolidated entry, keyed
by the normalized name of `flour`, with canonical volume total 720
(240 times 1 plus 240 times 2) and contributing recipe titles exactly A
and B. -/
theorem c1_consolidation_flour :
    consolidateIngredients [⟨"A", ["1 cup flour"]⟩, ⟨"B", ["2 cups flour"]⟩] =
      [(normalizeIngredientName "flour",
        ⟨"flour", "flour", 240 * 1 + 240 * 2, [⟨"1", "cup", "A"⟩, ⟨"2", "cups", "B"⟩],
          "cup", ["A", "B"], ["1 cup flour", "2 cups flour"]⟩)] ∧
    (240 * 1 + 240 * 2 : ℚ) = 720 := by
  constructor
  · have hp1 : parseIngredient "1 cup flour" = ⟨"1", "cup", "flour"⟩ := by decide
    have hp2 : parseIngredient "2 cups flour" = ⟨"2", "cups", "flour"⟩ := by decide
    have hn : normalizeIngredientName "flour" = "flour" := by decide
    have hc1 : convertToStandardUnit "1" "cup" = some 240 := by
      simp [convertToStandardUnit, jsParseFloat, digitsValQ, digitsVal, jsIsWs,
      conversions, List.lookup, lowerL]
    have hc2 : convertToStandardUnit "2" "cups" = some 480 := by
      simp [convertToStandardUnit, jsParseFloat, digitsValQ, digitsVal, jsIsWs,
      conversions, List.lookup, lowerL]
      norm_num
    simp [consolidateIngredients, insertStep, hp1, hp2, hn, hc1, hc2,
      applyAt, newEntry, updEntry, List.lookup]
    norm_num
  · norm_num

/-- C2: a RecipeRecord is emitted only if the extracted title or the
extracted ingredient list is nonempty, and an emitted record with an
absent extracted title carries the page-number default title. -/
theorem c2_emission_invariant (t : String) (n : ℕ) (r : Recipe)
    (h : parseRecipe t n = some r) :
    ((extractTitle t).isSome = true ∨ extractIngredients t ≠ []) ∧
      (extractTitle t = none → r.title = "Recipe from Page " ++ toString n) := by
  unfold parseRecipe at h
  by_cases hc : (extractTitle t).isNone && (extractIngredients t).isEmpty
  · rw [if_pos hc] at h
    exact absurd h (by simp)
  · rw [if_neg hc] at h
    simp only [Bool.and_eq_true, not_and_or] at hc
    constructor
    · rcases hc with hc | hc
      · left
        cases hx : extractTitle t with
        | none => rw [hx] at hc; simp at hc
        | some v => rfl
      · right
        intro hnil
        rw [hnil] at hc
        simp at hc
    · intro htitle
      have hr := Option.some.inj h
      rw [← hr, htitle]
      rfl

/-- Witness for C2 at the page text `ingredients: 2 cups flour`, which has
no extractable title but one ingredient, so it is emitted with the default
title of page seven. -/
theorem c2_emission_invariant_witness :
    ((extractTitle "ingredients: 2 cups flour").isSome = true ∨
      extractIngredients "ingredients: 2 cups flour" ≠ []) ∧
    (extractTitle "ingredients: 2 cups flour" = none →
      (Recipe.mk 7 "Recipe from Page 7" ⟨none, none, none, none, none⟩
        ["2 cups flour"] [] "ingredients: 2 cups flour").title =
        "Recipe from Page " ++ toString 7) :=
  c2_emission_invariant "ingredients: 2 cups flour" 7
    (Recipe.mk 7 "Recipe from Page 7" ⟨none, none, none, none, none⟩
      ["2 cups flour"] [] "ingredients: 2 cups flour") (by decide)

/-- C3 counterexample: the claim that two amounts of incompatible
dimensions are never added into the same running total is false: for the
single name `flour`, the volume contribution `1 cup` (240) and the mass
contribution `100 g` (100) are both added, giving total 340. -/
theorem c3_dimension_counterexample :
    ¬(∀ (rs : List RecipeIn) (key : String) (e : Entry),
        (consolidateIngredients rs).lookup key = some e →
        ∀ a ∈ e.amounts, ∀ b ∈ e.amounts,
          unitDim a.unit ≠ UnitDim.unitless → unitDim b.unit ≠ UnitDim.unitless →
          unitDim a.unit = unitDim b.unit) := by
  intro hclaim
  have hmix := hclaim _ _ _ consolidateMixed_lookup
    ⟨"1", "cup", "A"⟩ (by decide) ⟨"100", "g", "A"⟩ (by decide) (by decide) (by decide)
  exact absurd hmix (by decide)

/-- C3 amended: the running total accumulates every recorded numeric
contribution, converted through the unit table irrespective of dimension
(raw when the unit is unrecognized): for every consolidated entry the
total equals the sum of the conversions of all its recorded amounts. -/
theorem c3_total_accumulates_all (rs : List RecipeIn) (key : String) (e : Entry)
    (h : (consolidateIngredients rs).lookup key = some e) :
    e.totalAmount = (e.amounts.map convVal).sum :=
  consolidate_inv rs (key, e) (lookup_mem_entry h)

/-- Witness for the amended C3 at the mixed-dimension instance. -/
theorem c3_total_accumulates_all_witness :
    (consolidateIngredients [⟨"A", ["1 cup flour", "100 g flour"]⟩]).lookup "flour" =
      some (⟨"flour", "flour", 340, [⟨"1", "cup", "A"⟩, ⟨"100", "g", "A"⟩], "cup",
        ["A", "A"], ["1 cup flour", "100 g flour"]⟩ : Entry) ∧
    (⟨"flour", "flour", 340, [⟨"1", "cup", "A"⟩, ⟨"100", "g", "A"⟩], "cup",
      ["A", "A"], ["1 cup flour", "100 g flour"]⟩ : Entry).totalAmount =
      (((⟨"flour", "flour", 340, [⟨"1", "cup", "A"⟩, ⟨"100", "g", "A"⟩], "cup",
        ["A", "A"], ["1 cup flour", "100 g flour"]⟩ : Entry).amounts).map convVal).sum :=
  ⟨consolidateMixed_lookup,
    c3_total_accumulates_all [⟨"A", ["1 cup flour", "100 g flour"]⟩] "flour" _
      consolidateMixed_lookup⟩

/-- C4 counterexample: this page text contains no structural keywords and
no measurement-like lines, has no extractable title, yields zero
ingredients from the strategy chain, and the recovery pass would yield an
ingredient line, yet `parseRecipe` discards the page: the discard decision
is taken before the recovery pass is consulted. -/
theorem c4_discard_counterexample :
    extractTitle "2 friends and neighbors joined us for a quiet evening of games and laughter that went on well past midnight" = none ∧
    extractIngredients "2 friends and neighbors joined us for a quiet evening of games and laughter that went on well past midnight" = [] ∧
    100 < String.length "2 friends and neighbors joined us for a quiet evening of games and laughter that went on well past midnight" ∧
    extractIngredientsAlternative "2 friends and neighbors joined us for a quiet evening of games and laughter that went on well past midnight" ≠ [] ∧
    parseRecipe "2 friends and neighbors joined us for a quiet evening of games and laughter that went on well past midnight" 30 = none := by
  decide

/-- C4 amended: a page is discarded exactly when the extracted title is
absent and strategies one to three yield zero ingredients; the recovery
pass is never consulted for the discard decision (it runs only on emitted
records with empty ingredients and page text longer than one hundred
characters). -/
theorem c4_discard_amended (t : String) (n : ℕ) :
    parseRecipe t n = none ↔ (extractTitle t = none ∧ extractIngredients t = []) := by
  unfold parseRecipe
  by_cases hc : (extractTitle t).isNone && (extractIngredients t).isEmpty
  · rw [if_pos hc]
    simp only [Bool.and_eq_true, Option.isNone_iff_eq_none, List.isEmpty_iff] at hc
    simp [hc]
  · rw [if_neg hc]
    simp only [Bool.and_eq_true, Option.isNone_iff_eq_none, List.isEmpty_iff] at hc
    simp
    intro h1 h2
    exact hc ⟨h1, h2⟩

/-- C5: the fragments Garlic (x 10, y 100), Powder (x 40, y 100) and 1
(x 10, y 80) reconstruct to exactly the two lines `Garlic Powder` and `1`,
in that order (descending y, ascending x, space-joined and trimmed). -/
theorem c5_layout_reconstruction :
    organizeTextByLines [⟨"Garlic", 10, 100⟩, ⟨"Powder", 40, 100⟩, ⟨"1", 10, 80⟩] =
      ["Garlic Powder", "1"] := by
  norm_num [organizeTextByLines, addItem, sortLinesDesc, insertLineDesc, sortItemsAsc,
    insertItemAsc, joinSp]
  decide

/-- C6 counterexample: the text `9165 calories` contains the substring
`165 calories`, yet both macro extractors return calories 9165, not 165,
so the universally quantified claim is false. -/
theorem c6_calories_counterexample :
    ("9165 calories" : String) = "9" ++ "165 calories" ∧
    (extractMacros "9165 calories").calories = some 9165 ∧
    (extractMacrosAlt "9165 calories").calories = some 9165 ∧
    (9165 : ℚ) ≠ 165 := by
  refine ⟨rfl, ?_, ?_, by norm_num⟩
  · simp [extractMacros, extractMacrosAlt, labelNumScan, tryLabelAt, numLabelScan,
    tryNumLabelAt, numCapAt, skipColonWs, calAlts, protAlts, carbAlts, fatAlts, fibAlts,
    firstSomeQ, ciStarts, jsIsWs, labelAfter, digitsValQ, digitsVal]
  · simp [extractMacros, extractMacrosAlt, labelNumScan, tryLabelAt, numLabelScan,
    tryNumLabelAt, numCapAt, skipColonWs, calAlts, protAlts, carbAlts, fatAlts, fibAlts,
    firstSomeQ, ciStarts, jsIsWs, labelAfter, digitsValQ, digitsVal]

/-- C6 amended: on a page text whose only calories mention is the pattern
match itself, extraction yields 165: both extractor variants return
calories 165 on the texts `Calories: 165` and `165 calories`. -/
theorem c6_calories_amended :
    (extractMacros "Calories: 165").calories = some 165 ∧
    (extractMacros "165 calories").calories = some 165 ∧
    (extractMacrosAlt "Calories: 165").calories = some 165 ∧
    (extractMacrosAlt "165 calories").calories = some 165 := by
  refine ⟨?_, ?_, ?_, ?_⟩
  · simp [extractMacros, extractMacrosAlt, labelNumScan, tryLabelAt, numLabelScan,
    tryNumLabelAt, numCapAt, skipColonWs, calAlts, protAlts, carbAlts, fatAlts, fibAlts,
    firstSomeQ, ciStarts, jsIsWs, labelAfter, digitsValQ, digitsVal]
  · simp [extractMacros, extractMacrosAlt, labelNumScan, tryLabelAt, numLabelScan,
    tryNumLabelAt, numCapAt, skipColonWs, calAlts, protAlts, carbAlts, fatAlts, fibAlts,
    firstSomeQ, ciStarts, jsIsWs, labelAfter, digitsValQ, digitsVal]
  · simp [extractMacros, extractMacrosAlt, labelNumScan, tryLabelAt, numLabelScan,
    tryNumLabelAt, numCapAt, skipColonWs, calAlts, protAlts, carbAlts, fatAlts, fibAlts,
    firstSomeQ, ciStarts, jsIsWs, labelAfter, digitsValQ, digitsVal]
  · simp [extractMacros, extractMacrosAlt, labelNumScan, tryLabelAt, numLabelScan,
    tryNumLabelAt, numCapAt, skipColonWs, calAlts, protAlts, carbAlts, fatAlts, fibAlts,
    firstSomeQ, ciStarts, jsIsWs, labelAfter, digitsValQ, digitsVal]

/-- C7: the ingredient line `2 cups flour, sifted` parses to amount `2`,
unit `cups` and name `flour`. -/
theorem c7_parse_ingredient_line :
    parseIngredient "2 cups flour, sifted" = ⟨"2", "cups", "flour"⟩ := by
  decide

/-- C8 counterexample: for `1/2 cup milk` the parsed amount is the string
`1/2`, whose parseFloat is 1 (not the fraction value one half), so
consolidation adds 240 rather than the claimed 120. -/
theorem c8_fraction_counterexample :
    (parseIngredient "1/2 cup milk").amount = "1/2" ∧
    jsParseFloat "1/2" = some 1 ∧
    (consolidateIngredients [⟨"A", ["1/2 cup milk"]⟩]).lookup "milk" =
      some (⟨"milk", "milk", 240, [⟨"1/2", "cup", "A"⟩], "cup", ["A"],
        ["1/2 cup milk"]⟩ : Entry) ∧
    (240 : ℚ) ≠ 120 := by
  refine ⟨by decide, ?_, ?_, by norm_num⟩
  · simp [jsParseFloat, digitsValQ, digitsVal, jsIsWs]
  · rw [consolidateHalfCup_eval]
    simp [List.lookup]

/-- C8 amended: a leading simple fraction is captured whole as the amount
string, but parseFloat reads only the integer part before the slash, so
`1/2 cup milk` contributes one times 240 equals 240 to the total, not
120. -/
theorem c8_fraction_amended :
    consolidateIngredients [⟨"A", ["1/2 cup milk"]⟩] =
      [("milk", ⟨"milk", "milk", 240, [⟨"1/2", "cup", "A"⟩], "cup", ["A"],
        ["1/2 cup milk"]⟩)] ∧
    jsParseFloat "1/2" = some 1 ∧ (1 : ℚ) * 240 = 240 := by
  refine ⟨consolidateHalfCup_eval, ?_, by norm_num⟩
  simp [jsParseFloat, digitsValQ, digitsVal, jsIsWs]

/-- C9: section-bounded direction extraction splits on numbered-step
markers or blank-line paragraph breaks, keeps only trimmed segments longer
than ten characters that are not macro-like, and numbers the kept steps
sequentially from one regardless of any numbering present in the source
text: the conditional keep-own-number branch never fires. -/
theorem c9_sequential_renumbering (directionText : String) :
    parseDirectionText directionText.data = seqNumberFrom 1 (keptSteps directionText.data) := by
  unfold parseDirectionText
  apply renumber_eq_seq
  intro st hst
  unfold keptSteps at hst
  have h1 := List.mem_of_mem_filter hst
  obtain ⟨seg, hseg, hrfl⟩ := List.mem_map.1 h1
  exact hrfl ▸ startsNumDot_eq_false_of (noNumDotPair_trim (splitDirSteps_clean _ seg hseg))

/-- C10: any ingredient name containing `pepper` that contains none of the
nineteen keywords tried before `pepper` in the category table is assigned
`Pantry & Condiments`, because the duplicate object key `pepper` keeps its
first position with the later value. -/
theorem c10_pepper_category (name : String)
    (hpep : containsIn (lowerL name.data) "pepper".data = true)
    (hprior : ∀ p ∈ categoryMappings.take 19,
      containsIn (lowerL name.data) p.1.data = false) :
    categorizeIngredient name = "Pantry & Condiments" := by
  unfold categorizeIngredient
  have hsplit : categoryMappings =
      categoryMappings.take 19 ++ ("pepper", "Pantry & Condiments") ::
        categoryMappings.drop 20 := by decide
  rw [hsplit]
  exact findCat_skip _ _ _ _ hprior hpep

/-- Witness for C10 at the bare name `pepper`. -/
theorem c10_pepper_category_witness :
    containsIn (lowerL "pepper".data) "pepper".data = true ∧
    categorizeIngredient "pepper" = "Pantry & Condiments" :=
  ⟨by decide, c10_pepper_category "pepper" (by decide) (by decide)⟩
